import Mathlib

/-!
Verification of the transform-and-encrypt pipeline of `convert_data.py`
(behavior-analysis-viewer).  The pipeline reshapes two tabular datasets into
JSON artifacts: a flat list of annotated records and a thread map grouped by
thread id, validates the transform, and encrypts the thread JSON with
AES-256-CBC under a PBKDF2-derived key.

Tabular cell values are dynamically typed in the source (pandas); they are
embedded as the inductive `Cell`.  A pandas `DataFrame` is embedded as a list
of `(index, row)` pairs, mirroring `df.iterrows()`.  External library
primitives that are not part of the repository (the JSON decoder, the AES
block permutation, PBKDF2) are modelled: the JSON decoder as an executable
recursive-descent parser, the block cipher and the KDF as explicit function
parameters, so that every theorem states exactly which properties of the
primitives it uses.
-/

/-- A dynamically typed cell / JSON value.  `nan` is the pandas missing
marker (float NaN) and `null` is Python `None` / JSON null.  Numbers are
restricted to integers (the identifiers the data carries); floating-point
cells are outside the model. -/
inductive Cell where
  | nan : Cell
  | null : Cell
  | int : Int → Cell
  | bool : Bool → Cell
  | str : String → Cell
  | list : List Cell → Cell
  | obj : List (String × Cell) → Cell

/-- Modelled from the spec: `pd.isna` on a scalar cell value — true exactly
for the missing markers (NaN and None), false on every other scalar. -/
def pdIsna : Cell → Bool
  | .nan => true
  | .null => true
  | _ => false

/-- The Python comparison `value == ""` on a cell: only a string cell can
equal the empty string. -/
def isEmptyStrCell : Cell → Bool
  | .str s => s == ""
  | _ => false

/-! JSON decoding.  Modelled from the spec: the standard-library decoder
`json.loads` is not part of the repository; §4.2 says the field parser
"attempt[s] to decode it as JSON".  The model is an executable
recursive-descent parser over the character list, with a fuel argument for
termination (fuel one larger than the input length always suffices, since
every recursive call follows at least one consumed character). -/

/-- JSON insignificant whitespace. -/
def isJsonWs (c : Char) : Bool :=
  c == ' ' || c == '\t' || c == '\n' || c == '\r'

/-- Drop leading JSON whitespace. -/
def skipWs (cs : List Char) : List Char := cs.dropWhile isJsonWs

/-- The table of one-character JSON string escapes (`\u` escapes are
outside the model). -/
def escapeTable : List (Char × Char) :=
  [('"', '"'), ('\\', '\\'), ('/', '/'), ('n', '\n'),
   ('t', '\t'), ('r', '\r'), ('b', Char.ofNat 8), ('f', Char.ofNat 12)]

/-- Look an escape character up in the table. -/
def unescapeChar (c : Char) : Option Char :=
  (escapeTable.find? (fun p => p.1 == c)).map (fun p => p.2)

/-- Parse the body of a JSON string after the opening quote; returns the
decoded characters and the input following the closing quote. -/
def parseStringBody : List Char → Option (List Char × List Char)
  | [] => none
  | '"' :: rest => some ([], rest)
  | '\\' :: e :: rest =>
    match unescapeChar e with
    | none => none
    | some c =>
      match parseStringBody rest with
      | none => none
      | some (s, r) => some (c :: s, r)
  | c :: rest =>
    match parseStringBody rest with
    | none => none
    | some (s, r) => some (c :: s, r)

/-- Numeric value of a decimal digit character. -/
def digitVal (c : Char) : Nat := c.toNat - Char.toNat '0'

/-- Decimal digits to a natural number. -/
def digitsToNat (ds : List Char) : Nat :=
  ds.foldl (fun acc c => acc * 10 + digitVal c) 0

/-- Parse a JSON integer (an optional minus sign and decimal digits). -/
def parseNumber (cs : List Char) : Option (Cell × List Char) :=
  match cs with
  | '-' :: rest =>
    let ds := rest.takeWhile Char.isDigit
    if ds.isEmpty then none
    else some (.int (-(digitsToNat ds : Int)), rest.dropWhile Char.isDigit)
  | _ =>
    let ds := cs.takeWhile Char.isDigit
    if ds.isEmpty then none
    else some (.int ((digitsToNat ds : Nat) : Int), cs.dropWhile Char.isDigit)

mutual

/-- Parse one JSON value; returns the value and the remaining input. -/
def parseJsonValue : Nat → List Char → Option (Cell × List Char)
  | 0, _ => none
  | fuel + 1, cs =>
    match skipWs cs with
    | 'n' :: 'u' :: 'l' :: 'l' :: rest => some (.null, rest)
    | 't' :: 'r' :: 'u' :: 'e' :: rest => some (.bool true, rest)
    | 'f' :: 'a' :: 'l' :: 's' :: 'e' :: rest => some (.bool false, rest)
    | '"' :: rest =>
      match parseStringBody rest with
      | none => none
      | some (s, r) => some (.str (String.mk s), r)
    | '[' :: rest =>
      match skipWs rest with
      | ']' :: r => some (.list [], r)
      | cs2 =>
        match parseJsonElems fuel cs2 with
        | none => none
        | some (vs, r) => some (.list vs, r)
    | '{' :: rest =>
      match skipWs rest with
      | '}' :: r => some (.obj [], r)
      | cs2 =>
        match parseJsonMembers fuel cs2 with
        | none => none
        | some (kvs, r) => some (.obj kvs, r)
    | cs2 => parseNumber cs2

/-- Parse a nonempty comma-separated list of JSON values up to the closing
bracket. -/
def parseJsonElems : Nat → List Char → Option (List Cell × List Char)
  | 0, _ => none
  | fuel + 1, cs =>
    match parseJsonValue fuel cs with
    | none => none
    | some (v, r) =>
      match skipWs r with
      | ',' :: r2 =>
        match parseJsonElems fuel r2 with
        | none => none
        | some (vs, r3) => some (v :: vs, r3)
      | ']' :: r2 => some ([v], r2)
      | _ => none

/-- Parse a nonempty comma-separated list of JSON object members up to the
closing brace. -/
def parseJsonMembers : Nat → List Char → Option (List (String × Cell) × List Char)
  | 0, _ => none
  | fuel + 1, cs =>
    match skipWs cs with
    | '"' :: rest =>
      match parseStringBody rest with
      | none => none
      | some (k, r) =>
        match skipWs r with
        | ':' :: r2 =>
          match parseJsonValue fuel r2 with
          | none => none
          | some (v, r3) =>
            match skipWs r3 with
            | ',' :: r4 =>
              match parseJsonMembers fuel r4 with
              | none => none
              | some (kvs, r5) => some ((String.mk k, v) :: kvs, r5)
            | '}' :: r4 => some ([(String.mk k, v)], r4)
            | _ => none
        | _ => none
    | _ => none

end

/-- Modelled from the spec: `json.loads` — parse a whole JSON document,
requiring the entire input (up to trailing whitespace) to be consumed;
`none` is a decode failure (`json.JSONDecodeError`). -/
def jsonLoads (s : String) : Option Cell :=
  match parseJsonValue (s.length + 1) s.toList with
  | none => none
  | some (v, r) => if (skipWs r).isEmpty then some v else none

/-- `parse_vaccine_types` (convert_data.py:94-103): decode the
`vaccine_types` cell.  Missing or empty values give an empty list; a string
is decoded as JSON, with a decode failure caught and mapped to a
single-element list holding the raw cell; any other value passes through
unchanged.  The embedding returns `Except` so that a raising path, had one
existed, would be visible to the caller's handler. -/
def parse_vaccine_types (value : Cell) : Except String Cell :=
  if pdIsna value || isEmptyStrCell value then .ok (.list [])
  else
    match value with
    | .str s =>
      match jsonLoads s with
      | some v => .ok v
      | none => .ok (.list [.str s])
    | v => .ok v

/-! The annotated table.  A row / record is the ordered key-to-cell mapping
of `row.to_dict()`; a frame is the list of `(index, row)` pairs that
`df.iterrows()` yields. -/

/-- A row of the annotated table / an output record: an ordered mapping
from column name to cell. -/
abbrev Record := List (String × Cell)

/-- The `vaccine_types` column name. -/
def vaccineTypesKey : String := "vaccine_types"

/-- The `thread_id` column name. -/
def threadIdKey : String := "thread_id"

/-- Python `row[k]` / `record[k]` lookup; `none` is a `KeyError`. -/
def rowGet : Record → String → Option Cell
  | [], _ => none
  | kv :: t, k => if kv.1 == k then some kv.2 else rowGet t k

/-- Python `record[k] = v`: replace the value under an existing key in
place, or append a fresh key at the end (dict insertion order). -/
def setKey (r : Record) (k : String) (v : Cell) : Record :=
  if r.any (fun kv => kv.1 == k) then
    r.map (fun kv => if kv.1 == k then (k, v) else kv)
  else r ++ [(k, v)]

/-- The numpy-normalization loop body (convert_data.py:121-131): a missing
cell becomes `None` (JSON null); numpy scalar wrappers are unwrapped by
`.item()`, which is the identity here since cells are already plain values
in the model; list values, on which `pd.isna` misbehaves, are skipped by
the `except (ValueError, TypeError): pass` arm and pass through
unchanged. -/
def normalizeCell (c : Cell) : Cell :=
  if pdIsna c then .null else c

/-- The per-row parse-error message of convert_data.py:118. -/
def rowErrMsg (idx : Nat) (e : String) : String :=
  s!"Row {idx}: vaccine_types parse error - {e}"

/-- The exception text for a row with no `vaccine_types` column (a Python
`KeyError`, caught by the same per-row handler). -/
def keyErrorMsg : String := "KeyError: vaccine_types"

/-- One iteration of the `convert_annotated` loop (convert_data.py:111-133):
take the row as a record, replace `vaccine_types` by its parse — any
failure (such as a missing `vaccine_types` column) is caught, recorded as a
row-indexed error and replaced by the empty-list fallback — then run the
normalization loop over every cell of the record. -/
def processAnnotatedRow (idx : Nat) (row : Record) : Record × List String :=
  let step :=
    match rowGet row vaccineTypesKey with
    | some v =>
      match parse_vaccine_types v with
      | .ok parsed => (setKey row vaccineTypesKey parsed, ([] : List String))
      | .error e => (setKey row vaccineTypesKey (.list []), [rowErrMsg idx e])
    | none => (setKey row vaccineTypesKey (.list []), [rowErrMsg idx keyErrorMsg])
  ((step.1).map (fun kv => (kv.1, normalizeCell kv.2)), step.2)

/-- `convert_annotated` (convert_data.py:106-135): run the per-row
conversion over the table in order, accumulating the records and the parse
errors. -/
def convert_annotated : List (Nat × Record) → List Record × List String
  | [] => ([], [])
  | (idx, row) :: rest =>
    let pr := processAnnotatedRow idx row
    let tail := convert_annotated rest
    (pr.1 :: tail.1, pr.2 ++ tail.2)

/-! The thread-post table. -/

/-- One row of the thread-post table (fixed schema, spec §3); a `none`
field is a missing (NaN) cell. -/
structure ThreadRow where
  thread_id : Option Int
  post_id : Option Int
  author_role : Option String
  timestamp : Option String
  content : Option String
  sentiment : Option String
  has_vaccine_keyword : Option Bool
  replies_to_post_number : Option Int
deriving DecidableEq

/-- One output post (convert_data.py:146-154): every field has a defined
default, so no key is ever absent. -/
structure ThreadPost where
  post_id : Option Int
  author_role : Option String
  timestamp : Option String
  content : String
  sentiment : String
  has_vaccine_keyword : Bool
  replies_to_post_number : Option Int
deriving DecidableEq

/-- The default content string. -/
def emptyContent : String := ""

/-- The default sentiment string. -/
def neutralSentiment : String := "neutral"

/-- The post built from one row (convert_data.py:146-154): pass fields
through, defaulting a missing content to the empty string, a missing
sentiment to "neutral" and a missing keyword flag to false. -/
def rowToPost (r : ThreadRow) : ThreadPost :=
  { post_id := r.post_id
    author_role := r.author_role
    timestamp := r.timestamp
    content := r.content.getD emptyContent
    sentiment := r.sentiment.getD neutralSentiment
    has_vaccine_keyword := r.has_vaccine_keyword.getD false
    replies_to_post_number := r.replies_to_post_number }

/-- Ascending strict order on an optional integer sort key, missing values
last (pandas `na_position="last"`). -/
def optIntLt : Option Int → Option Int → Bool
  | some a, some b => decide (a < b)
  | some _, none => true
  | _, _ => false

/-- Ascending order on an optional string sort key, missing values last. -/
def optStrLe : Option String → Option String → Bool
  | some a, some b => decide (a ≤ b)
  | some _, none => true
  | none, some _ => false
  | none, none => true

/-- The comparison behind `df.sort_values(["thread_id", "timestamp"])`:
lexicographic, thread id ascending then timestamp ascending, missing keys
last. -/
def rowLe (a b : ThreadRow) : Bool :=
  optIntLt a.thread_id b.thread_id ||
    (a.thread_id == b.thread_id && optStrLe a.timestamp b.timestamp)

/-- `df.sort_values(["thread_id", "timestamp"])` (convert_data.py:141):
pandas multi-key sorting is a stable sort (numpy lexsort) of the indexed
rows by the key columns. -/
def sort_values (df : List (Nat × ThreadRow)) : List (Nat × ThreadRow) :=
  df.mergeSort (fun a b => rowLe a.2 b.2)

/-- The distinct thread ids present in a frame, in order of first
occurrence (on a sorted frame: ascending). -/
def threadKeys (rows : List (Nat × ThreadRow)) : List Int :=
  (rows.filterMap (fun p => p.2.thread_id)).dedup

/-- `df.groupby("thread_id")` on the sorted frame (convert_data.py:143):
pandas groups rows by key, silently dropping every row whose key is
missing, iterates the groups in ascending key order and keeps the frame's
row order inside each group.  On a frame sorted by `thread_id` this is: for
each distinct key in order, the rows carrying that key. -/
def groupByThreadId (rows : List (Nat × ThreadRow)) : List (Int × List (Nat × ThreadRow)) :=
  (threadKeys rows).map (fun k => (k, rows.filter (fun p => p.2.thread_id == some k)))

/-- `convert_threads` (convert_data.py:138-158): sort, group by thread id,
convert each group's rows to posts, and key the result by `str(int(k))`. -/
def convert_threads (df : List (Nat × ThreadRow)) : List (String × List ThreadPost) :=
  (groupByThreadId (sort_values df)).map
    (fun kg => (toString kg.1, kg.2.map (fun p => rowToPost p.2)))

/-! Validation and the pipeline gate. -/

/-- Total post count of a thread map (convert_data.py:169). -/
def totalPosts (threads : List (String × List ThreadPost)) : Nat :=
  (threads.map (fun kv => kv.2.length)).sum

/-- The hard-error message for an annotated count mismatch. -/
def annotatedMismatchMsg (a b : Nat) : String :=
  s!"Annotated count mismatch: {a} vs {b}"

/-- The hard-error message for a thread post count mismatch. -/
def threadsMismatchMsg (a b : Nat) : String :=
  s!"Threads post count mismatch: {a} vs {b}"

/-- The warning for thread ids seen in the annotated records but absent
from the thread map. -/
def missingThreadsMsg (n : Nat) : String :=
  s!"Thread IDs in annotated but not in threads: {n}"

/-- The warning for records whose `vaccine_types` is empty. -/
def emptyVaccineMsg (n : Nat) : String :=
  s!"Records with empty vaccine_types: {n}"

mutual

/-- Structural (Python value) equality of cells. -/
def cellEq : Cell → Cell → Bool
  | .nan, .nan => true
  | .null, .null => true
  | .int a, .int b => a == b
  | .bool a, .bool b => a == b
  | .str a, .str b => a == b
  | .list a, .list b => cellListEq a b
  | .obj a, .obj b => cellObjEq a b
  | _, _ => false

/-- Elementwise equality of cell lists. -/
def cellListEq : List Cell → List Cell → Bool
  | [], [] => true
  | a :: as, b :: bs => cellEq a b && cellListEq as bs
  | _, _ => false

/-- Elementwise equality of cell mappings. -/
def cellObjEq : List (String × Cell) → List (String × Cell) → Bool
  | [], [] => true
  | (k1, v1) :: as, (k2, v2) :: bs => k1 == k2 && cellEq v1 v2 && cellObjEq as bs
  | _, _ => false

end

instance : BEq Cell := ⟨cellEq⟩

/-- Python truthiness of a cell (`not r["vaccine_types"]`). -/
def cellFalsy : Cell → Bool
  | .nan => false
  | .null => true
  | .int i => i == 0
  | .bool b => !b
  | .str s => s.isEmpty
  | .list vs => vs.isEmpty
  | .obj kvs => kvs.isEmpty

/-- The `set` difference of convert_data.py:173-176: thread ids referenced
by the records but absent from the thread map's (integer-parsed) keys.  A
record with no `thread_id` key (a `KeyError` in the source, outside the
claims) is skipped here. -/
def missingThreadIds (annotated_records : List Record)
    (threads_dict : List (String × List ThreadPost)) : List Cell :=
  let annotatedThreadIds :=
    (annotated_records.filterMap (fun r => rowGet r threadIdKey)).eraseDups
  let threadsThreadIds := (threads_dict.map (fun kv => kv.1)).filterMap String.toInt?
  annotatedThreadIds.filter (fun c =>
    match c with
    | .int i => !(threadsThreadIds.contains i)
    | _ => true)

/-- The count of records whose `vaccine_types` is Python-falsy
(convert_data.py:180); a record without the key counts as empty. -/
def emptyVaccineCount (annotated_records : List Record) : Nat :=
  annotated_records.countP (fun r =>
    match rowGet r vaccineTypesKey with
    | some c => cellFalsy c
    | none => true)

/-- `validate_data` (convert_data.py:161-184): the two count checks are
hard errors; the thread-id set check and the empty-`vaccine_types` count
are warnings.  Only the lengths of the two source frames are consulted, so
they are passed as counts. -/
def validate_data (annotated_records : List Record)
    (threads_dict : List (String × List ThreadPost))
    (annotated_len threads_len : Nat) : List String × List String :=
  let errors1 : List String :=
    if annotated_records.length ≠ annotated_len then
      [annotatedMismatchMsg annotated_records.length annotated_len]
    else []
  let errors2 : List String :=
    if totalPosts threads_dict ≠ threads_len then
      [threadsMismatchMsg (totalPosts threads_dict) threads_len]
    else []
  let missing := missingThreadIds annotated_records threads_dict
  let warnings1 : List String :=
    if !missing.isEmpty then [missingThreadsMsg missing.length] else []
  let emptyCount := emptyVaccineCount annotated_records
  let warnings2 : List String :=
    if emptyCount > 0 then [emptyVaccineMsg emptyCount] else []
  (errors1 ++ errors2, warnings1 ++ warnings2)

/-- Output file name. -/
def annotatedJsonName : String := "annotated.json"

/-- Output file name. -/
def threadsEncryptedName : String := "threads.encrypted"

/-- Output file name. -/
def encryptionConfigName : String := "encryption_config.json"

/-- The write/abort skeleton of `main` (convert_data.py:191-327), modelled
as a pure function: the two CSVs arrive as already-loaded frames, file
existence as a flag, and a write is modelled as the written file's name
appearing in the returned list, in write order.  The password-length and
input-file checks abort with nothing written; a non-empty error list from
`validate_data` aborts with nothing written; otherwise the three artifacts
are written.  (The encryption itself sits between the first and second
write and is modelled separately; it cannot fail in the model.) -/
def mainFiles (password : String) (inputFilesExist : Bool)
    (annotated_df : List (Nat × Record)) (threads_df : List (Nat × ThreadRow)) :
    Bool × List String :=
  if password.length < 8 then (false, [])
  else if !inputFilesExist then (false, [])
  else
    let ca := convert_annotated annotated_df
    let threads_dict := convert_threads threads_df
    let ew := validate_data ca.1 threads_dict annotated_df.length threads_df.length
    if !ew.1.isEmpty then (false, [])
    else (true, [annotatedJsonName, threadsEncryptedName, encryptionConfigName])

/-! Encryption (convert_data.py:58-87).  Bytes are naturals (meaningful
values < 256); a plaintext string enters as its UTF-8 byte sequence.  The
AES-256 block permutation and PBKDF2 are pycryptodome primitives, outside
the repository: they enter as explicit function parameters (`enc`, `dec` :
key → block → block; `kdf` : password → salt → key), so each theorem names
exactly the properties of the primitives it relies on. -/

/-- A byte string. -/
abbrev Bytes := List Nat

/-- Bytewise xor. -/
def xorBytes (a b : Bytes) : Bytes := List.zipWith (fun x y => x ^^^ y) a b

/-- `AES.block_size`: 16 bytes. -/
def blockSize : Nat := 16

/-- `Crypto.Util.Padding.pad(data, AES.block_size)`, PKCS7 style: append
`16 - len % 16` copies of that very value (always between 1 and 16). -/
def pkcs7Pad (d : Bytes) : Bytes :=
  d ++ List.replicate (blockSize - d.length % blockSize) (blockSize - d.length % blockSize)

/-- Modelled from the spec: PKCS7 padding removal on the decryption side —
read the last byte `n`, check `1 ≤ n ≤ 16`, that at least `n` bytes are
present and that the last `n` bytes all equal `n`, then drop them; `none`
on invalid padding. -/
def pkcs7Unpad (d : Bytes) : Option Bytes :=
  match d.getLast? with
  | none => none
  | some n =>
    if 1 ≤ n ∧ n ≤ blockSize ∧ n ≤ d.length ∧
        (d.drop (d.length - n)).all (fun x => x == n) then
      some (d.take (d.length - n))
    else none

/-- `AES.new(key, AES.MODE_CBC, iv)` followed by `cipher.encrypt` on the
padded data: CBC chaining of the block primitive `enc key`, with `prev`
the iv (first block) or the previous ciphertext block. -/
def cbcEncrypt (enc : Bytes → Bytes → Bytes) (key prev : Bytes) : Bytes → Bytes
  | [] => []
  | x :: rest =>
    let d := x :: rest
    let c := enc key (xorBytes (d.take blockSize) prev)
    c ++ cbcEncrypt enc key c (d.drop blockSize)
termination_by d => d.length
decreasing_by
  simp only [blockSize, List.length_drop, List.length_cons]
  omega

/-- Modelled from the spec: CBC decryption — each plaintext block is the
block decryption of a ciphertext block xored with the previous ciphertext
block (the iv for the first). -/
def cbcDecrypt (dec : Bytes → Bytes → Bytes) (key prev : Bytes) : Bytes → Bytes
  | [] => []
  | x :: rest =>
    let d := x :: rest
    let c := d.take blockSize
    xorBytes (dec key c) prev ++ cbcDecrypt dec key c (d.drop blockSize)
termination_by d => d.length
decreasing_by
  simp only [blockSize, List.length_drop, List.length_cons]
  omega

/-- The base64 alphabet. -/
def b64Alphabet : List Char :=
  "ABCDEFGHIJKLMNOPQRSTUVWXYZabcdefghijklmnopqrstuvwxyz0123456789+/".toList

/-- The base64 character of a 6-bit group. -/
def b64Char (i : Nat) : Char := b64Alphabet.getD i '?'

/-- The 6-bit value of a base64 character; `none` off the alphabet. -/
def b64Index (c : Char) : Option Nat := b64Alphabet.findIdx? (fun x => x == c)

/-- `base64.b64encode`: three bytes to four characters, with `=` padding
for a final group of one or two bytes. -/
def b64EncodeBytes : Bytes → List Char
  | [] => []
  | [a] => [b64Char (a / 4), b64Char (a % 4 * 16), '=', '=']
  | [a, b] => [b64Char (a / 4), b64Char (a % 4 * 16 + b / 16), b64Char (b % 16 * 4), '=']
  | a :: b :: c :: rest =>
    b64Char (a / 4) :: b64Char (a % 4 * 16 + b / 16) :: b64Char (b % 16 * 4 + c / 64) ::
      b64Char (c % 64) :: b64EncodeBytes rest

/-- Modelled from the spec: base64 decoding on the client side; `none` on
input that is not valid base64. -/
def b64DecodeChars : List Char → Option Bytes
  | [] => some []
  | c1 :: c2 :: c3 :: c4 :: rest =>
    match b64Index c1, b64Index c2 with
    | some i1, some i2 =>
      if c3 == '=' then
        if c4 == '=' && rest.isEmpty then some [i1 * 4 + i2 / 16] else none
      else
        match b64Index c3 with
        | some i3 =>
          if c4 == '=' then
            if rest.isEmpty then some [i1 * 4 + i2 / 16, i2 % 16 * 16 + i3 / 4] else none
          else
            match b64Index c4 with
            | some i4 =>
              match b64DecodeChars rest with
              | some bs =>
                some ((i1 * 4 + i2 / 16) :: (i2 % 16 * 16 + i3 / 4) :: (i3 % 4 * 64 + i4) :: bs)
              | none => none
            | none => none
        | none => none
    | _, _ => none
  | _ => none

/-- `base64.b64encode(x).decode("utf-8")`. -/
def b64encode (d : Bytes) : String := String.mk (b64EncodeBytes d)

/-- Modelled from the spec: client-side base64 decoding of a stored text. -/
def b64decode (s : String) : Option Bytes := b64DecodeChars s.toList

/-- `encrypt_data` (convert_data.py:58-87), with the library primitives and
the randomness of `get_random_bytes` made explicit: derive a 32-byte key
from (password, salt) with the KDF, CBC-encrypt the PKCS7-padded plaintext
bytes under that key and the iv, and base64-encode ciphertext, salt and iv.
`kdf` stands for `PBKDF2(password, salt, dkLen=32, count=100000)` and
`enc` for the AES-256 block encryption of pycryptodome. -/
def encrypt_data (enc : Bytes → Bytes → Bytes) (kdf : String → Bytes → Bytes)
    (salt iv : Bytes) (data : Bytes) (password : String) : String × String × String :=
  let key := kdf password salt
  let encrypted := cbcEncrypt enc key iv (pkcs7Pad data)
  (b64encode encrypted, b64encode salt, b64encode iv)

/-- Modelled from the spec: the client-side decryption counterpart (§4.6,
§8 round trip) — base64-decode ciphertext, salt and iv, derive the key
from (password, salt) with the same KDF, CBC-decrypt with the block
decryption `dec`, and remove the PKCS7 padding. -/
def decrypt_data (dec : Bytes → Bytes → Bytes) (kdf : String → Bytes → Bytes)
    (ct salt iv : String) (password : String) : Option Bytes :=
  match b64decode ct, b64decode salt, b64decode iv with
  | some ctb, some saltb, some ivb =>
    pkcs7Unpad (cbcDecrypt dec (kdf password saltb) ivb ctb)
  | _, _, _ => none

/-! Theorems. -/

/-- A structured, non-missing, non-string cell (spec §4.2's "already a
structured value"). -/
def isStructuredCell : Cell → Bool
  | .int _ => true
  | .bool _ => true
  | .list _ => true
  | .obj _ => true
  | _ => false

/-- The empty string. -/
def emptyStr : String := ""

/-- The literal string of two brackets, a serialized empty JSON array. -/
def twoBrackets : String := "[]"

/-- A malformed `vaccine_types` cell content. -/
def notJson : String := "not json"

/-- A well-formed `vaccine_types` cell content. -/
def pfizerJson : String := "[\"pfizer\"]"

/-- The vaccine-type string of `pfizerJson`. -/
def pfizerStr : String := "pfizer"

/-- Claim C4: `parse_vaccine_types` yields a result for every cell value —
no input makes it raise — and a structured value (not a string, not a
missing marker) is returned unchanged. -/
theorem parse_vaccine_types_total_structured (v : Cell) :
    (parse_vaccine_types v).isOk = true ∧
      (isStructuredCell v = true → parse_vaccine_types v = .ok v) := by
  constructor
  · cases v
    case str s =>
      simp only [parse_vaccine_types]
      split
      · rfl
      · cases h : jsonLoads s <;> simp [h, Except.isOk, Except.toBool]
    all_goals rfl
  · intro h
    cases v <;> simp_all [parse_vaccine_types, pdIsna, isEmptyStrCell, isStructuredCell]

/-- Witness for C4 at the structured value `Cell.int 7`. -/
theorem parse_vaccine_types_total_structured_witness :
    isStructuredCell (.int 7) = true ∧ parse_vaccine_types (.int 7) = .ok (.int 7) :=
  ⟨rfl, (parse_vaccine_types_total_structured (.int 7)).2 rfl⟩

/-- Claim C5: a missing or empty `vaccine_types` cell yields the empty
list; a string holding a valid JSON array decodes to exactly that array
(in particular the serialized empty array); a non-empty string that fails
JSON decoding yields the one-element list holding the raw string. -/
theorem parse_vaccine_types_cases :
    (parse_vaccine_types .nan = .ok (.list []) ∧
      parse_vaccine_types .null = .ok (.list []) ∧
      parse_vaccine_types (.str emptyStr) = .ok (.list [])) ∧
    (∀ s vs, jsonLoads s = some (.list vs) →
      parse_vaccine_types (.str s) = .ok (.list vs)) ∧
    (∀ s, s ≠ emptyStr → jsonLoads s = none →
      parse_vaccine_types (.str s) = .ok (.list [.str s])) ∧
    parse_vaccine_types (.str twoBrackets) = .ok (.list []) ∧
    parse_vaccine_types (.str notJson) = .ok (.list [.str notJson]) := by
  refine ⟨⟨rfl, rfl, rfl⟩, ?_, ?_, rfl, rfl⟩
  · intro s vs h
    by_cases hs : s = emptyStr
    · subst hs
      exact absurd h (by intro h2; rw [show jsonLoads emptyStr = none from rfl] at h2; cases h2)
    · simp only [emptyStr] at hs
      simp [parse_vaccine_types, pdIsna, isEmptyStrCell, hs, h]
  · intro s hs h
    simp only [emptyStr] at hs
    simp [parse_vaccine_types, pdIsna, isEmptyStrCell, hs, h]

/-- Witness for C5 at a concrete well-formed JSON array string. -/
theorem parse_vaccine_types_cases_witness :
    jsonLoads pfizerJson = some (.list [.str pfizerStr]) ∧
      parse_vaccine_types (.str pfizerJson) = .ok (.list [.str pfizerStr]) :=
  ⟨rfl, parse_vaccine_types_cases.2.1 pfizerJson [.str pfizerStr] rfl⟩

/-! Counting posts across thread groups (claims C2 and C9). -/

/-- Over a duplicate-free list containing `k`, the indicator of `k` sums
to one. -/
theorem sum_indicator_nodup (k₀ : Int) :
    ∀ (K : List Int), K.Nodup → k₀ ∈ K →
      (K.map (fun k => if k₀ = k then 1 else 0)).sum = 1 := by
  intro K
  induction K with
  | nil => intro _ h; cases h
  | cons k K ih =>
    intro hnd hk
    rcases List.nodup_cons.mp hnd with ⟨hknotin, hKnd⟩
    rcases List.mem_cons.mp hk with hkk | hkK
    · subst hkk
      have hzero : (K.map fun k => if k₀ = k then 1 else 0).sum = 0 := by
        apply List.sum_eq_zero
        intro x hx
        rcases List.mem_map.mp hx with ⟨k, hkK2, rfl⟩
        have hne : k₀ ≠ k := fun e => hknotin (e ▸ hkK2)
        simp [hne]
      simp [hzero]
    · have hne : k₀ ≠ k := fun e => hknotin (e ▸ hkK)
      simp [hne, ih hKnd hkK]

/-- Summing, over a duplicate-free key list covering every key of `l`, the
count of elements carrying each key gives the count of elements carrying
any key at all. -/
theorem sum_count_keys {α : Type} (key : α → Option Int) :
    ∀ (l : List α) (K : List Int), K.Nodup →
      (∀ a ∈ l, ∀ k, key a = some k → k ∈ K) →
      (K.map (fun k => l.countP (fun a => key a == some k))).sum
        = l.countP (fun a => (key a).isSome) := by
  intro l
  induction l with
  | nil => intro K _ _; simp [List.countP_nil]
  | cons a t ih =>
    intro K hK hcov
    have hcovt : ∀ x ∈ t, ∀ k, key x = some k → k ∈ K :=
      fun x hx => hcov x (List.mem_cons_of_mem a hx)
    simp only [List.countP_cons, List.sum_map_add]
    rw [ih K hK hcovt]
    congr 1
    cases h : key a with
    | none => simp [h]
    | some k₀ =>
      have hk₀ : k₀ ∈ K := hcov a (List.mem_cons_self a t) k₀ h
      simp only [h, Option.isSome_some, if_true, beq_iff_eq, Option.some.injEq]
      exact sum_indicator_nodup k₀ K hK hk₀

/-- The total post count of `convert_threads` is the number of input rows
whose `thread_id` is present. -/
theorem totalPosts_convert_threads (df : List (Nat × ThreadRow)) :
    totalPosts (convert_threads df) = df.countP (fun p => p.2.thread_id.isSome) := by
  have hperm := List.mergeSort_perm df (fun a b => rowLe a.2 b.2)
  rw [← List.Perm.countP_eq _ hperm]
  unfold totalPosts convert_threads groupByThreadId
  rw [List.map_map, List.map_map]
  simp only [Function.comp_def, List.length_map]
  have hlen : ∀ k, ((sort_values df).filter
      (fun p => p.2.thread_id == some k)).length
        = (sort_values df).countP (fun p => p.2.thread_id == some k) := by
    intro k
    rw [List.countP_eq_length_filter]
  simp only [hlen]
  exact sum_count_keys (fun p => p.2.thread_id) (sort_values df)
    (threadKeys (sort_values df)) (List.nodup_dedup _)
    (fun a ha k hk => List.mem_dedup.mpr (List.mem_filterMap.mpr ⟨a, ha, hk⟩))

/-- Claim C9: a row whose `thread_id` is missing is silently omitted by
`convert_threads`: the total post count equals the number of rows with a
present `thread_id`, every group holds only rows whose `thread_id` is
present, and `convert_threads` returns only the thread map (it has no
error or warning output). -/
theorem convert_threads_drops_missing (df : List (Nat × ThreadRow)) :
    totalPosts (convert_threads df) = df.countP (fun p => p.2.thread_id.isSome) ∧
      ∀ kg ∈ groupByThreadId (sort_values df), ∀ p ∈ kg.2,
        p.2.thread_id.isSome = true := by
  refine ⟨totalPosts_convert_threads df, ?_⟩
  intro kg hkg p hp
  rcases List.mem_map.mp hkg with ⟨k, _, rfl⟩
  have := (List.mem_filter.mp hp).2
  rcases hpk : p.2.thread_id with _ | k2
  · rw [hpk] at this; cases this
  · rfl

/-- A concrete thread row. -/
def mkRow (tid : Option Int) (ts : Option String) (pid : Option Int) : ThreadRow :=
  { thread_id := tid
    post_id := pid
    author_role := none
    timestamp := ts
    content := none
    sentiment := none
    has_vaccine_keyword := none
    replies_to_post_number := none }

/-- A one-row frame whose only row has a missing `thread_id`. -/
def exDfC9 : List (Nat × ThreadRow) := [(0, mkRow (some 5) none (some 1))]

/-- Witness for C9: in a one-row frame whose row carries thread id 5, the
group of key 5 exists and its row has a present thread id. -/
theorem convert_threads_drops_missing_witness :
    ((5 : Int), [((0 : Nat), mkRow (some 5) none (some 1))])
        ∈ groupByThreadId (sort_values exDfC9) ∧
      (((0 : Nat), mkRow (some 5) none (some 1)) :
          Nat × ThreadRow).2.thread_id.isSome = true := by
  have hmem : ((5 : Int), [((0 : Nat), mkRow (some 5) none (some 1))])
      ∈ groupByThreadId (sort_values exDfC9) := by
    simp [exDfC9, sort_values, groupByThreadId, threadKeys, mkRow]
  exact ⟨hmem, (convert_threads_drops_missing exDfC9).2 _ hmem _ (by simp)⟩

/-- A one-row frame whose only row has a missing `thread_id`. -/
def exDfC2 : List (Nat × ThreadRow) := [(0, mkRow none none (some 1))]

/-- Counterexample to claim C2 as stated: on a frame with one row whose
`thread_id` is missing, the total post count of the thread map is 0 while
the input has 1 row — the row is dropped. -/
theorem convert_threads_count_counterexample :
    totalPosts (convert_threads exDfC2) = 0 ∧ exDfC2.length = 1 ∧
      totalPosts (convert_threads exDfC2) ≠ exDfC2.length := by
  refine ⟨?_, rfl, ?_⟩
  · simp [convert_threads, sort_values, exDfC2, groupByThreadId, threadKeys,
      totalPosts, mkRow]
  · simp [convert_threads, sort_values, exDfC2, groupByThreadId, threadKeys,
      totalPosts, mkRow]

/-- Claim C2 (amended): for a thread-post table all of whose rows carry a
present `thread_id`, the sum of the post-sequence lengths over the thread
map equals the input row count — no row is dropped or duplicated. -/
theorem convert_threads_lossless (df : List (Nat × ThreadRow))
    (h : ∀ p ∈ df, p.2.thread_id.isSome = true) :
    totalPosts (convert_threads df) = df.length := by
  rw [totalPosts_convert_threads df]
  exact List.countP_eq_length.mpr h

/-- The timestamp comparison is transitive. -/
theorem optStrLe_trans (a b c : Option String) :
    optStrLe a b = true → optStrLe b c = true → optStrLe a c = true := by
  cases a <;> cases b <;> cases c <;> simp [optStrLe]
  exact le_trans

/-- The timestamp comparison is total. -/
theorem optStrLe_total (a b : Option String) :
    (optStrLe a b || optStrLe b a) = true := by
  cases a <;> cases b <;> simp [optStrLe]
  exact le_total _ _

/-- The row comparison of `sort_values` is transitive. -/
theorem rowLe_trans (a b c : ThreadRow) :
    rowLe a b = true → rowLe b c = true → rowLe a c = true := by
  unfold rowLe optIntLt
  rcases ha : a.thread_id with _ | x <;> rcases hb : b.thread_id with _ | y <;>
    rcases hc : c.thread_id with _ | z <;>
    simp only [Bool.or_eq_true, Bool.and_eq_true, beq_iff_eq, decide_eq_true_eq,
      Option.some.injEq, reduceCtorEq] <;> intro h1 h2
  · exact Or.inr ⟨trivial, optStrLe_trans _ _ _ (h1.resolve_left id).2 (h2.resolve_left id).2⟩
  · rcases h2 with h | ⟨h, -⟩ <;> exact h.elim
  · rcases h1 with h | ⟨h, -⟩ <;> exact h.elim
  · rcases h1 with h | ⟨h, -⟩ <;> exact h.elim
  · exact Or.inl trivial
  · rcases h2 with h | ⟨h, -⟩ <;> exact h.elim
  · exact Or.inl trivial
  · rcases h1 with h1 | ⟨e1, s1⟩ <;> rcases h2 with h2 | ⟨e2, s2⟩
    · exact Or.inl (by omega)
    · exact Or.inl (by omega)
    · exact Or.inl (by omega)
    · exact Or.inr ⟨by omega, optStrLe_trans _ _ _ s1 s2⟩

/-- The row comparison of `sort_values` is total. -/
theorem rowLe_total (a b : ThreadRow) :
    (rowLe a b || rowLe b a) = true := by
  unfold rowLe optIntLt
  rcases ha : a.thread_id with _ | x <;> rcases hb : b.thread_id with _ | y <;>
    simp only [Bool.or_eq_true, Bool.and_eq_true, beq_iff_eq, decide_eq_true_eq,
      Option.some.injEq, reduceCtorEq]
  · have h0 := optStrLe_total a.timestamp b.timestamp
    rw [Bool.or_eq_true] at h0
    rcases h0 with h | h
    · exact Or.inl (Or.inr ⟨trivial, h⟩)
    · exact Or.inr (Or.inr ⟨trivial, h⟩)
  · exact Or.inr (Or.inl trivial)
  · exact Or.inl (Or.inl trivial)
  · rcases lt_trichotomy x y with h | h | h
    · exact Or.inl (Or.inl h)
    · subst h
      have h0 := optStrLe_total a.timestamp b.timestamp
      rw [Bool.or_eq_true] at h0
      rcases h0 with h | h
      · exact Or.inl (Or.inr ⟨rfl, h⟩)
      · exact Or.inr (Or.inr ⟨rfl, h⟩)
    · exact Or.inr (Or.inl h)

/-- The comparison of `sort_values` holds between two rows that agree on
both sort keys. -/
theorem rowLe_of_eq_keys (a b : ThreadRow) (h1 : a.thread_id = b.thread_id)
    (h2 : a.timestamp = b.timestamp) : rowLe a b = true := by
  unfold rowLe optIntLt
  rw [h1, h2]
  rcases b.thread_id with _ | x <;> rcases b.timestamp with _ | t <;>
    simp [optStrLe]

/-- Two positions of a list, in order, give a two-element sublist. -/
theorem pair_get_sublist {α : Type _} (l : List α) (i j : Nat) (hi : i < l.length)
    (hj : j < l.length) (hij : i < j) :
    List.Sublist [l.get ⟨i, hi⟩, l.get ⟨j, hj⟩] l := by
  have hdrop : l.drop i = l.get ⟨i, hi⟩ :: l.drop (i + 1) := by
    rw [List.drop_eq_getElem_cons hi]
    simp [List.get_eq_getElem]
  have hk : j - (i + 1) < (l.drop (i + 1)).length := by
    simp only [List.length_drop]
    omega
  have hgd : (l.drop (i + 1)).get ⟨j - (i + 1), hk⟩ = l.get ⟨j, hj⟩ := by
    simp only [List.get_eq_getElem, List.getElem_drop]
    congr 1
    omega
  have hmem : l.get ⟨j, hj⟩ ∈ l.drop (i + 1) := hgd ▸ List.get_mem _ _ hk
  have h2 : List.Sublist [l.get ⟨i, hi⟩, l.get ⟨j, hj⟩] (l.get ⟨i, hi⟩ :: l.drop (i + 1)) :=
    (List.singleton_sublist.mpr hmem).cons₂ _
  rw [← hdrop] at h2
  exact h2.trans (List.drop_sublist i l)

/-- Claim C3: the sort `convert_threads` performs on (thread_id ascending,
timestamp ascending) is stable — two rows of the input frame that agree on
both sort keys appear in the sorted frame in their input order, and hence
in that order in the post sequence of their thread group. -/
theorem sort_values_stable (df : List (Nat × ThreadRow)) (i j : Nat)
    (hi : i < df.length) (hj : j < df.length) (hij : i < j)
    (htid : (df.get ⟨i, hi⟩).2.thread_id = (df.get ⟨j, hj⟩).2.thread_id)
    (hts : (df.get ⟨i, hi⟩).2.timestamp = (df.get ⟨j, hj⟩).2.timestamp) :
    List.Sublist [df.get ⟨i, hi⟩, df.get ⟨j, hj⟩] (sort_values df) ∧
      ∀ k, (df.get ⟨i, hi⟩).2.thread_id = some k →
        ((toString k,
          ((sort_values df).filter (fun p => p.2.thread_id == some k)).map
            (fun p => rowToPost p.2)) ∈ convert_threads df ∧
        List.Sublist [rowToPost (df.get ⟨i, hi⟩).2, rowToPost (df.get ⟨j, hj⟩).2]
          (((sort_values df).filter (fun p => p.2.thread_id == some k)).map
            (fun p => rowToPost p.2))) := by
  have h0 : List.Sublist [df.get ⟨i, hi⟩, df.get ⟨j, hj⟩] (sort_values df) := by
    unfold sort_values
    exact List.pair_sublist_mergeSort
      (fun a b c hab hbc => rowLe_trans a.2 b.2 c.2 hab hbc)
      (fun a b => rowLe_total a.2 b.2)
      (rowLe_of_eq_keys _ _ htid hts)
      (pair_get_sublist df i j hi hj hij)
  refine ⟨h0, ?_⟩
  intro k hk
  have hpi : ((df.get ⟨i, hi⟩).2.thread_id == some k) = true := by
    rw [hk]
    exact beq_self_eq_true _
  have hpj : ((df.get ⟨j, hj⟩).2.thread_id == some k) = true := by
    rw [← htid, hk]
    exact beq_self_eq_true _
  constructor
  · have hmemdf : df.get ⟨i, hi⟩ ∈ df := List.get_mem df i hi
    have hmems : df.get ⟨i, hi⟩ ∈ sort_values df :=
      (List.mergeSort_perm df (fun a b => rowLe a.2 b.2)).symm.subset hmemdf
    have hkmem : k ∈ threadKeys (sort_values df) :=
      List.mem_dedup.mpr (List.mem_filterMap.mpr ⟨df.get ⟨i, hi⟩, hmems, hk⟩)
    have hform : convert_threads df
        = (threadKeys (sort_values df)).map (fun k => (toString k,
            ((sort_values df).filter (fun p => p.2.thread_id == some k)).map
              (fun p => rowToPost p.2))) := by
      unfold convert_threads groupByThreadId
      rw [List.map_map]
      rfl
    rw [hform]
    exact List.mem_map.mpr ⟨k, hkmem, rfl⟩
  · have hfil := h0.filter (fun p => p.2.thread_id == some k)
    have hsmall : List.filter (fun p => p.2.thread_id == some k)
        [df.get ⟨i, hi⟩, df.get ⟨j, hj⟩] = [df.get ⟨i, hi⟩, df.get ⟨j, hj⟩] := by
      have hkj : (df.get ⟨j, hj⟩).2.thread_id = some k := by
        rw [← htid]
        exact hk
      have hk2 := hk
      simp only [List.get_eq_getElem] at hk2 hkj
      simp [List.filter_cons, hk2, hkj]
    rw [hsmall] at hfil
    exact hfil.map (fun p => rowToPost p.2)

/-- A fixed timestamp string. -/
def tsStr : String := "2020-01-01"

/-- Two rows agreeing on thread id and timestamp, differing in post id. -/
def rowS1 : ThreadRow := mkRow (some 3) (some tsStr) (some 1)

/-- Two rows agreeing on thread id and timestamp, differing in post id. -/
def rowS2 : ThreadRow := mkRow (some 3) (some tsStr) (some 2)

/-- A two-row frame whose rows agree on both sort keys. -/
def exDfC3 : List (Nat × ThreadRow) := [(0, rowS1), (1, rowS2)]

/-- Witness for C3 on a concrete two-row frame with equal keys: the rows
keep their order in the sorted frame and in the posts of thread "3". -/
theorem sort_values_stable_witness :
    List.Sublist [((0 : Nat), rowS1), ((1 : Nat), rowS2)] (sort_values exDfC3) ∧
      List.Sublist [rowToPost rowS1, rowToPost rowS2]
        (((sort_values exDfC3).filter (fun p => p.2.thread_id == some 3)).map
          (fun p => rowToPost p.2)) :=
  ⟨(sort_values_stable exDfC3 0 1 (by decide) (by decide) (by decide) rfl rfl).1,
    ((sort_values_stable exDfC3 0 1 (by decide) (by decide) (by decide) rfl rfl).2
      3 rfl).2⟩

/-- Witness for the amended C2 on a concrete two-row frame. -/
theorem convert_threads_lossless_witness :
    (∀ p ∈ exDfC9, p.2.thread_id.isSome = true) ∧
      totalPosts (convert_threads exDfC9) = exDfC9.length :=
  ⟨by decide, convert_threads_lossless exDfC9 (by decide)⟩


theorem rowGet_map_value (f : Cell → Cell) (k : String) :
    ∀ r : Record, rowGet (r.map (fun kv => (kv.1, f kv.2))) k = (rowGet r k).map f := by
  intro r
  induction r with
  | nil => rfl
  | cons kv t ih =>
    by_cases h : (kv.1 == k) = true
    · simp [rowGet, h]
    · simp [rowGet, h, ih]

theorem rowGet_replace (k : String) (v : Cell) :
    ∀ r : Record, r.any (fun kv => kv.1 == k) = true →
      rowGet (r.map (fun kv => if kv.1 == k then (k, v) else kv)) k = some v := by
  intro r
  induction r with
  | nil => intro h; simp at h
  | cons kv t ih =>
    intro hany
    by_cases h : (kv.1 == k) = true
    · simp [rowGet, h]
    · rw [List.any_cons] at hany
      rcases Bool.or_eq_true_iff.mp hany with h2 | h2
      · exact absurd h2 h
      · have hmc : (kv :: t).map (fun kv => if kv.1 == k then (k, v) else kv)
            = kv :: t.map (fun kv => if kv.1 == k then (k, v) else kv) := by
          rw [List.map_cons, if_neg h]
        rw [hmc, rowGet, if_neg h]
        exact ih h2

theorem rowGet_append_new (k : String) (v : Cell) :
    ∀ r : Record, r.any (fun kv => kv.1 == k) = false →
      rowGet (r ++ [(k, v)]) k = some v := by
  intro r
  induction r with
  | nil => intro _; simp [rowGet]
  | cons kv t ih =>
    intro hany
    rw [List.any_cons] at hany
    rcases Bool.or_eq_false_iff.mp hany with ⟨h1, h2⟩
    simp only [List.cons_append]
    simp [rowGet, h1, ih h2]

theorem rowGet_setKey (r : Record) (k : String) (v : Cell) :
    rowGet (setKey r k v) k = some v := by
  unfold setKey
  by_cases hany : r.any (fun kv => kv.1 == k) = true
  · rw [if_pos hany]
    exact rowGet_replace k v r hany
  · rw [if_neg hany]
    exact rowGet_append_new k v r (Bool.eq_false_iff.mpr hany)


/-- The outcome of the guarded `vaccine_types` parse of one row: `some e`
when the lookup or the parse raises with message `e`, `none` on success. -/
def rowParseFailed (row : Record) : Option String :=
  match rowGet row vaccineTypesKey with
  | none => some keyErrorMsg
  | some v =>
    match parse_vaccine_types v with
    | .ok _ => none
    | .error e => some e

theorem convert_annotated_fst :
    ∀ df, (convert_annotated df).1 = df.map (fun p => (processAnnotatedRow p.1 p.2).1) := by
  intro df
  induction df with
  | nil => rfl
  | cons p t ih =>
    cases p with
    | mk idx row => simp [convert_annotated, ih]

theorem convert_annotated_snd :
    ∀ df, (convert_annotated df).2 = (df.map (fun p => (processAnnotatedRow p.1 p.2).2)).flatten := by
  intro df
  induction df with
  | nil => rfl
  | cons p t ih =>
    cases p with
    | mk idx row => simp [convert_annotated, ih]

theorem processAnnotatedRow_failed (idx : Nat) (row : Record) (e : String)
    (he : rowParseFailed row = some e) :
    rowGet (processAnnotatedRow idx row).1 vaccineTypesKey = some (.list []) ∧
      (processAnnotatedRow idx row).2 = [rowErrMsg idx e] := by
  unfold rowParseFailed at he
  cases hg : rowGet row vaccineTypesKey with
  | none =>
    simp only [hg] at he
    injection he with he
    subst he
    constructor
    · simp only [processAnnotatedRow, hg]
      rw [rowGet_map_value normalizeCell vaccineTypesKey, rowGet_setKey]
      rfl
    · simp only [processAnnotatedRow, hg]
  | some v =>
    simp only [hg] at he
    cases hp : parse_vaccine_types v with
    | ok w => simp only [hp] at he; cases he
    | error e2 =>
      simp only [hp] at he
      injection he with he
      subst he
      constructor
      · simp only [processAnnotatedRow, hg, hp]
        rw [rowGet_map_value normalizeCell vaccineTypesKey, rowGet_setKey]
        rfl
      · simp only [processAnnotatedRow, hg, hp]

/-- Claim C6: `convert_annotated` returns exactly one record per input row,
in input order (no row dropped or duplicated); a row whose `vaccine_types`
lookup or parse fails is recovered, not fatal: its record's
`vaccine_types` becomes the empty list and a row-indexed error message
joins the returned error list. -/
theorem convert_annotated_complete (df : List (Nat × Record)) :
    (convert_annotated df).1.length = df.length ∧
      (convert_annotated df).1 = df.map (fun p => (processAnnotatedRow p.1 p.2).1) ∧
      (convert_annotated df).2
        = (df.map (fun p => (processAnnotatedRow p.1 p.2).2)).flatten ∧
      ∀ idx row, (idx, row) ∈ df → ∀ e, rowParseFailed row = some e →
        rowGet (processAnnotatedRow idx row).1 vaccineTypesKey = some (.list []) ∧
          rowErrMsg idx e ∈ (convert_annotated df).2 := by
  refine ⟨?_, convert_annotated_fst df, convert_annotated_snd df, ?_⟩
  · rw [convert_annotated_fst df, List.length_map]
  · intro idx row hmem e he
    obtain ⟨h1, h2⟩ := processAnnotatedRow_failed idx row e he
    refine ⟨h1, ?_⟩
    rw [convert_annotated_snd df]
    apply List.mem_flatten.mpr
    refine ⟨[rowErrMsg idx e], ?_, List.mem_singleton_self _⟩
    rw [← h2]
    exact List.mem_map.mpr ⟨(idx, row), hmem, rfl⟩

/-- A one-row annotated frame whose row lacks the `vaccine_types` column. -/
def exDfC6 : List (Nat × Record) := [(0, [])]

/-- Witness for C6 on a one-row frame whose row has no `vaccine_types`
column: the parse failure is recovered with an empty list and a recorded
error. -/
theorem convert_annotated_complete_witness :
    ((0, ([] : Record)) ∈ exDfC6) ∧ rowParseFailed [] = some keyErrorMsg ∧
      rowGet (processAnnotatedRow 0 []).1 vaccineTypesKey = some (.list []) ∧
      rowErrMsg 0 keyErrorMsg ∈ (convert_annotated exDfC6).2 := by
  have h := (convert_annotated_complete exDfC6).2.2.2 0 []
    (by simp [exDfC6]) keyErrorMsg rfl
  exact ⟨by simp [exDfC6], rfl, h.1, h.2⟩


/-- An eight-character-plus password for witnesses. -/
def passwordEx : String := "longpassword"

/-- Claim C7: in `validate_data` the two count checks are hard errors — a
mismatch puts the corresponding message into the error list — while the
thread-id set check and the empty-`vaccine_types` count only ever
contribute warnings (with both counts matching, the error list is empty
whatever those checks find, and every warning is one of the two warning
messages); and whenever `validate_data` reports any error on the
converted data, `main` writes none of the three output files. -/
theorem validate_data_classification
    (annotated_records : List Record) (threads_dict : List (String × List ThreadPost))
    (annotated_len threads_len : Nat) :
    (annotated_records.length ≠ annotated_len →
      annotatedMismatchMsg annotated_records.length annotated_len
        ∈ (validate_data annotated_records threads_dict annotated_len threads_len).1) ∧
    (totalPosts threads_dict ≠ threads_len →
      threadsMismatchMsg (totalPosts threads_dict) threads_len
        ∈ (validate_data annotated_records threads_dict annotated_len threads_len).1) ∧
    (annotated_records.length = annotated_len → totalPosts threads_dict = threads_len →
      (validate_data annotated_records threads_dict annotated_len threads_len).1 = []) ∧
    (missingThreadIds annotated_records threads_dict ≠ [] →
      missingThreadsMsg (missingThreadIds annotated_records threads_dict).length
        ∈ (validate_data annotated_records threads_dict annotated_len threads_len).2) ∧
    (0 < emptyVaccineCount annotated_records →
      emptyVaccineMsg (emptyVaccineCount annotated_records)
        ∈ (validate_data annotated_records threads_dict annotated_len threads_len).2) ∧
    (∀ w ∈ (validate_data annotated_records threads_dict annotated_len threads_len).2,
      ∃ n, w = missingThreadsMsg n ∨ w = emptyVaccineMsg n) ∧
    (∀ password exist adf tdf,
      (validate_data (convert_annotated adf).1 (convert_threads tdf)
        adf.length tdf.length).1 ≠ [] →
      mainFiles password exist adf tdf = (false, [])) := by
  refine ⟨?_, ?_, ?_, ?_, ?_, ?_, ?_⟩
  · intro h
    simp [validate_data, h]
  · intro h
    simp [validate_data, h]
  · intro h1 h2
    simp [validate_data, h1, h2]
  · intro h
    simp [validate_data, List.isEmpty_iff, h]
  · intro h
    simp [validate_data, h]
  · intro w hw
    simp only [validate_data] at hw
    rcases List.mem_append.mp hw with h | h
    · split at h
      · rcases List.mem_singleton.mp h with rfl
        exact ⟨_, Or.inl rfl⟩
      · cases h
    · split at h
      · rcases List.mem_singleton.mp h with rfl
        exact ⟨_, Or.inr rfl⟩
      · cases h
  · intro password exist adf tdf herr
    unfold mainFiles
    by_cases hpw : password.length < 8
    · rw [if_pos hpw]
    · rw [if_neg hpw]
      cases exist with
      | false => rfl
      | true =>
        simp only [Bool.not_true, Bool.false_eq_true, if_false]
        have hcond : (!(validate_data (convert_annotated adf).1 (convert_threads tdf)
            adf.length tdf.length).1.isEmpty) = true := by
          simp [List.isEmpty_iff, herr]
        rw [if_pos hcond]


/-- Witness for C7: a one-short record list trips the annotated count
check, and a thread frame whose only row lacks its `thread_id` makes the
thread count check fail, halting `main` with no file written. -/
theorem validate_data_classification_witness :
    annotatedMismatchMsg 0 1 ∈ (validate_data [] [] 1 0).1 ∧
      mainFiles passwordEx true [] exDfC2 = (false, []) := by
  constructor
  · exact (validate_data_classification [] [] 1 0).1 (by decide)
  · apply (validate_data_classification [] [] 1 0).2.2.2.2.2.2 passwordEx true [] exDfC2
    simp [validate_data, convert_annotated, convert_threads, sort_values, exDfC2,
      groupByThreadId, threadKeys, totalPosts, mkRow]


/-- Claim C8: encryption is deterministic given fixed randomness: two runs
of `encrypt_data` with the same primitives, plaintext, password, salt and
iv produce identical results — in particular the same ciphertext. -/
theorem encrypt_data_deterministic
    (enc : Bytes → Bytes → Bytes) (kdf : String → Bytes → Bytes)
    (salt iv data : Bytes) (password : String) (r1 r2 : String × String × String)
    (h1 : r1 = encrypt_data enc kdf salt iv data password)
    (h2 : r2 = encrypt_data enc kdf salt iv data password) :
    r1 = r2 ∧ r1.1 = r2.1 := by
  subst h1
  subst h2
  exact ⟨rfl, rfl⟩

/-- Witness for C8 at concrete primitives and inputs. -/
theorem encrypt_data_deterministic_witness :
    encrypt_data (fun _ b => b) (fun _ _ => []) [1] [2] [3] passwordEx
      = encrypt_data (fun _ b => b) (fun _ _ => []) [1] [2] [3] passwordEx :=
  (encrypt_data_deterministic (fun _ b => b) (fun _ _ => []) [1] [2] [3]
    passwordEx _ _ rfl rfl).1

/-! Byte-level lemmas for the encryption round trip. -/

/-- Length of a bytewise xor. -/
theorem xorBytes_length (a b : Bytes) :
    (xorBytes a b).length = min a.length b.length := by
  simp [xorBytes]

/-- Xoring twice with the same equal-length mask is the identity. -/
theorem xorBytes_cancel : ∀ (a b : Bytes), a.length = b.length →
    xorBytes (xorBytes a b) b = a := by
  intro a
  induction a with
  | nil =>
    intro b h
    cases b with
    | nil => rfl
    | cons y ys => simp at h
  | cons x xs ih =>
    intro b h
    cases b with
    | nil => simp at h
    | cons y ys =>
      simp only [xorBytes, List.zipWith_cons_cons]
      refine List.cons_eq_cons.mpr ⟨?_, ?_⟩
      · rw [Nat.xor_assoc, Nat.xor_self, Nat.xor_zero]
      · exact ih ys (by simpa using h)

/-- A bytewise xor of byte-valued lists is byte-valued. -/
theorem xorBytes_lt : ∀ (a b : Bytes), (∀ x ∈ a, x < 256) → (∀ x ∈ b, x < 256) →
    ∀ x ∈ xorBytes a b, x < 256 := by
  intro a
  induction a with
  | nil => intro b _ _ x hx; simp [xorBytes] at hx
  | cons z zs ih =>
    intro b ha hb x hx
    cases b with
    | nil => simp [xorBytes] at hx
    | cons y ys =>
      simp only [xorBytes, List.zipWith_cons_cons, List.mem_cons] at hx
      rcases hx with rfl | hx
      · have h1 : z < 2 ^ 8 := ha z (List.mem_cons_self z zs)
        have h2 : y < 2 ^ 8 := hb y (List.mem_cons_self y ys)
        calc z ^^^ y < 2 ^ 8 := Nat.xor_lt_two_pow h1 h2
          _ = 256 := rfl
      · exact ih ys (fun u hu => ha u (List.mem_cons_of_mem z hu))
          (fun u hu => hb u (List.mem_cons_of_mem y hu)) x hx

/-- The padded message length. -/
theorem pkcs7Pad_length (d : Bytes) :
    (pkcs7Pad d).length = d.length + (16 - d.length % 16) := by
  simp [pkcs7Pad, blockSize]

/-- Padding always produces a multiple of the block size. -/
theorem pkcs7Pad_mod (d : Bytes) : (pkcs7Pad d).length % 16 = 0 := by
  rw [pkcs7Pad_length]
  omega

/-- Every byte of the padded message is a byte of the message or a pad
value (at most 16). -/
theorem pkcs7Pad_lt (d : Bytes) (hd : ∀ x ∈ d, x < 256) :
    ∀ x ∈ pkcs7Pad d, x < 256 := by
  intro x hx
  rcases List.mem_append.mp hx with h | h
  · exact hd x h
  · have := List.eq_of_mem_replicate h
    simp only [blockSize] at this
    omega

/-- Removing the padding recovers the message exactly. -/
theorem pkcs7_roundtrip (d : Bytes) : pkcs7Unpad (pkcs7Pad d) = some d := by
  have hL : (pkcs7Pad d).length = d.length + (16 - d.length % 16) := pkcs7Pad_length d
  have hmod : d.length % 16 < 16 := Nat.mod_lt _ (by omega)
  have hbs : blockSize - d.length % blockSize = 16 - d.length % 16 := by
    simp [blockSize]
  have hrepgen : ∀ (n v : Nat), 1 ≤ n →
      List.replicate n v = List.replicate (n - 1) v ++ [v] := by
    intro n v h
    conv_lhs => rw [show n = (n - 1) + 1 by omega]
    exact List.replicate_succ' _ _
  have hrep : List.replicate (16 - d.length % 16) (16 - d.length % 16)
      = List.replicate (16 - d.length % 16 - 1) (16 - d.length % 16)
        ++ [16 - d.length % 16] := hrepgen _ _ (by omega)
  have hlast : (pkcs7Pad d).getLast? = some (16 - d.length % 16) := by
    unfold pkcs7Pad
    rw [hbs, hrep, ← List.append_assoc, List.getLast?_concat]
  have hdrop : (pkcs7Pad d).drop ((pkcs7Pad d).length - (16 - d.length % 16))
      = List.replicate (16 - d.length % 16) (16 - d.length % 16) := by
    rw [hL, show d.length + (16 - d.length % 16) - (16 - d.length % 16)
      = d.length by omega]
    unfold pkcs7Pad
    rw [hbs]
    exact List.drop_left d _
  have htake : (pkcs7Pad d).take ((pkcs7Pad d).length - (16 - d.length % 16)) = d := by
    rw [hL, show d.length + (16 - d.length % 16) - (16 - d.length % 16)
      = d.length by omega]
    unfold pkcs7Pad
    rw [hbs]
    exact List.take_left d _
  unfold pkcs7Unpad
  simp only [hlast]
  rw [if_pos]
  · rw [htake]
  · refine ⟨by omega, by simp only [blockSize]; omega, by rw [hL]; omega, ?_⟩
    rw [hdrop]
    simp only [List.all_eq_true]
    intro x hx
    rw [List.eq_of_mem_replicate hx]
    exact beq_self_eq_true _


/-- `cbcDecrypt` on a ciphertext whose first block is explicit. -/
theorem cbcDecrypt_cons16 (dec : Bytes → Bytes → Bytes) (key prev c t : Bytes)
    (hc : c.length = 16) :
    cbcDecrypt dec key prev (c ++ t)
      = xorBytes (dec key c) prev ++ cbcDecrypt dec key c t := by
  obtain ⟨c0, cr, rfl⟩ : ∃ c0 cr, c = c0 :: cr := by
    cases c with
    | nil => simp at hc
    | cons c0 cr => exact ⟨c0, cr, rfl⟩
  rw [List.cons_append, cbcDecrypt]
  have htake : (c0 :: (cr ++ t)).take blockSize = c0 :: cr := by
    rw [show c0 :: (cr ++ t) = (c0 :: cr) ++ t from rfl]
    exact List.take_left' (by simpa [blockSize] using hc)
  have hdrop : (c0 :: (cr ++ t)).drop blockSize = t := by
    rw [show c0 :: (cr ++ t) = (c0 :: cr) ++ t from rfl]
    exact List.drop_left' (by simpa [blockSize] using hc)
  simp only [htake, hdrop]

/-- CBC decryption inverts CBC encryption, for any block primitive with a
left inverse that maps 16-byte blocks to 16-byte blocks. -/
theorem cbc_roundtrip (enc dec : Bytes → Bytes → Bytes) (key : Bytes)
    (hdec : ∀ b, dec key (enc key b) = b)
    (hlen : ∀ b, b.length = 16 → (enc key b).length = 16) :
    ∀ n (d prev : Bytes), d.length = n → d.length % 16 = 0 → prev.length = 16 →
      cbcDecrypt dec key prev (cbcEncrypt enc key prev d) = d := by
  intro n
  induction n using Nat.strong_induction_on with
  | _ n ih =>
    intro d prev hdn hmod hprev
    cases d with
    | nil => simp [cbcEncrypt, cbcDecrypt]
    | cons x rest =>
      have hge : 16 ≤ (x :: rest).length := by
        simp only [List.length_cons] at hmod ⊢
        omega
      have htk : ((x :: rest).take blockSize).length = 16 := by
        simp only [List.length_take, blockSize]
        omega
      rw [cbcEncrypt]
      have hxlen : (xorBytes ((x :: rest).take blockSize) prev).length = 16 := by
        rw [xorBytes_length, htk, hprev]
        simp
      have hclen : (enc key (xorBytes ((x :: rest).take blockSize) prev)).length = 16 :=
        hlen _ hxlen
      rw [cbcDecrypt_cons16 dec key prev _ _ hclen, hdec,
        xorBytes_cancel _ _ (htk.trans hprev.symm)]
      have hdlt : ((x :: rest).drop blockSize).length < n := by
        simp only [List.length_drop, blockSize, List.length_cons] at hdn ⊢
        omega
      have hdmod : ((x :: rest).drop blockSize).length % 16 = 0 := by
        simp only [List.length_drop, blockSize, List.length_cons] at hmod ⊢
        omega
      rw [ih _ hdlt ((x :: rest).drop blockSize) _ rfl hdmod hclen]
      exact List.take_append_drop blockSize (x :: rest)

/-- CBC encryption preserves the (block-aligned) data length. -/
theorem cbcEncrypt_length (enc : Bytes → Bytes → Bytes) (key : Bytes)
    (hlen : ∀ b, b.length = 16 → (enc key b).length = 16) :
    ∀ n (d prev : Bytes), d.length = n → d.length % 16 = 0 → prev.length = 16 →
      (cbcEncrypt enc key prev d).length = d.length := by
  intro n
  induction n using Nat.strong_induction_on with
  | _ n ih =>
    intro d prev hdn hmod hprev
    cases d with
    | nil => simp [cbcEncrypt]
    | cons x rest =>
      have htk : ((x :: rest).take blockSize).length = 16 := by
        simp only [List.length_take, blockSize, List.length_cons] at hmod ⊢
        omega
      have hxlen : (xorBytes ((x :: rest).take blockSize) prev).length = 16 := by
        rw [xorBytes_length, htk, hprev]
        simp
      have hclen : (enc key (xorBytes ((x :: rest).take blockSize) prev)).length = 16 :=
        hlen _ hxlen
      rw [cbcEncrypt]
      rw [List.length_append, hclen]
      have hdlt : ((x :: rest).drop blockSize).length < n := by
        simp only [List.length_drop, blockSize, List.length_cons] at hdn ⊢
        omega
      have hdmod : ((x :: rest).drop blockSize).length % 16 = 0 := by
        simp only [List.length_drop, blockSize, List.length_cons] at hmod ⊢
        omega
      rw [ih _ hdlt ((x :: rest).drop blockSize) _ rfl hdmod hclen]
      simp only [List.length_drop, blockSize, List.length_cons] at hmod ⊢
      omega

/-- Every byte of a CBC ciphertext is a byte value, for a byte-valued
block primitive. -/
theorem cbcEncrypt_range (enc : Bytes → Bytes → Bytes) (key : Bytes)
    (hlen : ∀ b, b.length = 16 → (enc key b).length = 16)
    (hrange : ∀ b, b.length = 16 → (∀ x ∈ b, x < 256) → ∀ x ∈ enc key b, x < 256) :
    ∀ n (d prev : Bytes), d.length = n → d.length % 16 = 0 → (∀ x ∈ d, x < 256) →
      prev.length = 16 → (∀ x ∈ prev, x < 256) →
      ∀ x ∈ cbcEncrypt enc key prev d, x < 256 := by
  intro n
  induction n using Nat.strong_induction_on with
  | _ n ih =>
    intro d prev hdn hmod hd hprev hprevr
    cases d with
    | nil => simp [cbcEncrypt]
    | cons x rest =>
      have htk : ((x :: rest).take blockSize).length = 16 := by
        simp only [List.length_take, blockSize, List.length_cons] at hmod ⊢
        omega
      have hxlen : (xorBytes ((x :: rest).take blockSize) prev).length = 16 := by
        rw [xorBytes_length, htk, hprev]
        simp
      have hxr : ∀ y ∈ xorBytes ((x :: rest).take blockSize) prev, y < 256 :=
        xorBytes_lt _ _ (fun y hy => hd y (List.take_subset _ _ hy)) hprevr
      have hclen : (enc key (xorBytes ((x :: rest).take blockSize) prev)).length = 16 :=
        hlen _ hxlen
      have hcr : ∀ y ∈ enc key (xorBytes ((x :: rest).take blockSize) prev), y < 256 :=
        hrange _ hxlen hxr
      rw [cbcEncrypt]
      intro y hy
      rcases List.mem_append.mp hy with h | h
      · exact hcr y h
      · have hdlt : ((x :: rest).drop blockSize).length < n := by
          simp only [List.length_drop, blockSize, List.length_cons] at hdn ⊢
          omega
        have hdmod : ((x :: rest).drop blockSize).length % 16 = 0 := by
          simp only [List.length_drop, blockSize, List.length_cons] at hmod ⊢
          omega
        exact ih _ hdlt ((x :: rest).drop blockSize) _ rfl hdmod
          (fun z hz => hd z (List.drop_subset _ _ hz)) hclen hcr y h


/-- Decoding a base64 character of a 6-bit group recovers the group. -/
theorem b64Index_b64Char : ∀ i, i < 64 → b64Index (b64Char i) = some i := by decide

/-- No base64 alphabet character is the padding character. -/
theorem b64Char_ne_pad : ∀ i, i < 64 → (b64Char i == '=') = false := by decide

/-- Base64 decoding inverts base64 encoding on byte-valued input. -/
theorem b64_roundtrip : ∀ n (d : Bytes), d.length = n → (∀ x ∈ d, x < 256) →
    b64DecodeChars (b64EncodeBytes d) = some d := by
  intro n
  induction n using Nat.strong_induction_on with
  | _ n ih =>
    intro d hdn hd
    match d with
    | [] => rfl
    | [a] =>
      have ha : a < 256 := hd a (by simp)
      have h1 : b64Index (b64Char (a / 4)) = some (a / 4) :=
        b64Index_b64Char _ (by omega)
      have h2 : b64Index (b64Char (a % 4 * 16)) = some (a % 4 * 16) :=
        b64Index_b64Char _ (by omega)
      simp [b64EncodeBytes, b64DecodeChars, h1, h2]
      omega
    | [a, b] =>
      have ha : a < 256 := hd a (by simp)
      have hb : b < 256 := hd b (by simp)
      have h1 : b64Index (b64Char (a / 4)) = some (a / 4) :=
        b64Index_b64Char _ (by omega)
      have h2 : b64Index (b64Char (a % 4 * 16 + b / 16)) = some (a % 4 * 16 + b / 16) :=
        b64Index_b64Char _ (by omega)
      have h3 : b64Index (b64Char (b % 16 * 4)) = some (b % 16 * 4) :=
        b64Index_b64Char _ (by omega)
      have hne3 : (b64Char (b % 16 * 4) == '=') = false := b64Char_ne_pad _ (by omega)
      simp [b64EncodeBytes, b64DecodeChars, h1, h2, h3, hne3]
      constructor <;> omega
    | a :: b :: c :: rest =>
      have ha : a < 256 := hd a (by simp)
      have hb : b < 256 := hd b (by simp)
      have hc : c < 256 := hd c (by simp)
      have h1 : b64Index (b64Char (a / 4)) = some (a / 4) :=
        b64Index_b64Char _ (by omega)
      have h2 : b64Index (b64Char (a % 4 * 16 + b / 16)) = some (a % 4 * 16 + b / 16) :=
        b64Index_b64Char _ (by omega)
      have h3 : b64Index (b64Char (b % 16 * 4 + c / 64)) = some (b % 16 * 4 + c / 64) :=
        b64Index_b64Char _ (by omega)
      have h4 : b64Index (b64Char (c % 64)) = some (c % 64) :=
        b64Index_b64Char _ (by omega)
      have hne3 : (b64Char (b % 16 * 4 + c / 64) == '=') = false :=
        b64Char_ne_pad _ (by omega)
      have hne4 : (b64Char (c % 64) == '=') = false := b64Char_ne_pad _ (by omega)
      have hrec : b64DecodeChars (b64EncodeBytes rest) = some rest := by
        apply ih rest.length (by simp only [List.length_cons] at hdn; omega) rest rfl
        intro x hx
        exact hd x (by simp [hx])
      simp [b64EncodeBytes, b64DecodeChars, h1, h2, h3, h4, hne3, hne4, hrec]
      refine ⟨by omega, by omega, by omega⟩


/-- Base64 decoding inverts `b64encode` on byte-valued input. -/
theorem b64_encode_decode (d : Bytes) (hd : ∀ x ∈ d, x < 256) :
    b64decode (b64encode d) = some d := by
  unfold b64encode b64decode
  exact b64_roundtrip d.length d rfl hd

/-- Claim C1: for every plaintext (as its UTF-8 byte sequence) and every
password, `encrypt_data` returns base64-encoded (ciphertext, salt, iv)
such that the client-side counterpart — deriving the key from (password,
salt) with the same KDF and decrypting under CBC with the block
decryption, then removing the PKCS7 padding — reproduces the plaintext
bytes exactly.  The block primitive is assumed to be a 16-byte-preserving,
byte-valued permutation (as the AES-256 block cipher is), the iv the
16-byte string the source draws from `get_random_bytes(16)`. -/
theorem encrypt_decrypt_roundtrip
    (enc dec : Bytes → Bytes → Bytes) (kdf : String → Bytes → Bytes)
    (salt iv data : Bytes) (password : String)
    (hdec : ∀ key b, dec key (enc key b) = b)
    (hlen : ∀ key b, b.length = 16 → (enc key b).length = 16)
    (hrange : ∀ key b, b.length = 16 → (∀ x ∈ b, x < 256) → ∀ x ∈ enc key b, x < 256)
    (hsalt : ∀ x ∈ salt, x < 256) (hivlen : iv.length = 16)
    (hivr : ∀ x ∈ iv, x < 256) (hdata : ∀ x ∈ data, x < 256) :
    decrypt_data dec kdf (encrypt_data enc kdf salt iv data password).1
      (encrypt_data enc kdf salt iv data password).2.1
      (encrypt_data enc kdf salt iv data password).2.2 password = some data := by
  simp only [encrypt_data]
  have hctr : ∀ x ∈ cbcEncrypt enc (kdf password salt) iv (pkcs7Pad data), x < 256 :=
    cbcEncrypt_range enc (kdf password salt) (hlen _) (hrange _) _ _ _ rfl
      (pkcs7Pad_mod data) (pkcs7Pad_lt data hdata) hivlen hivr
  unfold decrypt_data
  rw [b64_encode_decode _ hctr, b64_encode_decode _ hsalt, b64_encode_decode _ hivr]
  show pkcs7Unpad (cbcDecrypt dec (kdf password salt) iv
    (cbcEncrypt enc (kdf password salt) iv (pkcs7Pad data))) = some data
  rw [cbc_roundtrip enc dec (kdf password salt) (hdec _) (hlen _) _ _ _ rfl
    (pkcs7Pad_mod data) hivlen]
  exact pkcs7_roundtrip data

/-- A 16-byte iv for witnesses. -/
def ivEx : Bytes := List.replicate 16 0

/-- Witness for C1 with the identity block permutation at concrete
inputs. -/
theorem encrypt_decrypt_roundtrip_witness :
    decrypt_data (fun _ b => b) (fun _ _ => [])
      (encrypt_data (fun _ b => b) (fun _ _ => []) [7] ivEx [72, 105] passwordEx).1
      (encrypt_data (fun _ b => b) (fun _ _ => []) [7] ivEx [72, 105] passwordEx).2.1
      (encrypt_data (fun _ b => b) (fun _ _ => []) [7] ivEx [72, 105] passwordEx).2.2
      passwordEx = some [72, 105] :=
  encrypt_decrypt_roundtrip (fun _ b => b) (fun _ b => b) (fun _ _ => [])
    [7] ivEx [72, 105] passwordEx
    (fun _ _ => rfl) (fun _ _ h => h) (fun _ _ _ h => h)
    (by decide) (by decide) (by decide) (by decide)

/-- Claim C10: the ciphertext of `encrypt_data`, after base64 decoding,
has byte length `16 * (len / 16 + 1)` — the smallest multiple of 16
strictly greater than the plaintext byte length (PKCS7 always pads by 1 to
16 bytes), so the ciphertext is never empty, even for an empty
plaintext. -/
theorem encrypt_data_ciphertext_length
    (enc : Bytes → Bytes → Bytes) (kdf : String → Bytes → Bytes)
    (salt iv data : Bytes) (password : String)
    (hlen : ∀ key b, b.length = 16 → (enc key b).length = 16)
    (hrange : ∀ key b, b.length = 16 → (∀ x ∈ b, x < 256) → ∀ x ∈ enc key b, x < 256)
    (hivlen : iv.length = 16) (hivr : ∀ x ∈ iv, x < 256)
    (hdata : ∀ x ∈ data, x < 256) :
    ∃ ct : Bytes,
      b64decode (encrypt_data enc kdf salt iv data password).1 = some ct ∧
      ct.length = 16 * (data.length / 16 + 1) ∧
      ct.length % 16 = 0 ∧ data.length < ct.length ∧
      ct.length ≤ data.length + 16 := by
  simp only [encrypt_data]
  have hctr : ∀ x ∈ cbcEncrypt enc (kdf password salt) iv (pkcs7Pad data), x < 256 :=
    cbcEncrypt_range enc (kdf password salt) (hlen _) (hrange _) _ _ _ rfl
      (pkcs7Pad_mod data) (pkcs7Pad_lt data hdata) hivlen hivr
  refine ⟨cbcEncrypt enc (kdf password salt) iv (pkcs7Pad data),
    b64_encode_decode _ hctr, ?_, ?_, ?_, ?_⟩ <;>
    rw [cbcEncrypt_length enc (kdf password salt) (hlen _) _ _ _ rfl
      (pkcs7Pad_mod data) hivlen, pkcs7Pad_length] <;> omega

/-- Witness for C10 with the identity block permutation at concrete
inputs; the plaintext is empty and the ciphertext nevertheless one block. -/
theorem encrypt_data_ciphertext_length_witness :
    ∃ ct : Bytes,
      b64decode (encrypt_data (fun _ b => b) (fun _ _ => []) [7] ivEx []
        passwordEx).1 = some ct ∧
      ct.length = 16 * (List.length ([] : Bytes) / 16 + 1) ∧
      ct.length % 16 = 0 ∧ List.length ([] : Bytes) < ct.length ∧
      ct.length ≤ List.length ([] : Bytes) + 16 :=
  encrypt_data_ciphertext_length (fun _ b => b) (fun _ _ => []) [7] ivEx []
    passwordEx (fun _ _ h => h) (fun _ _ _ h => h) (by decide) (by decide) (by decide)
